import Mathlib

/-!
Verification of the `syno` Go package, a client for the Synology NAS web
APIs.  The development shallowly embeds the package (file `syno.go`): pure
helpers become Lean functions, the HTTP transport becomes an explicit
capability value, fallible operations return `Except`, and the network
calls made by `Client.Do` are recorded in an explicit trace so that
properties such as "performs exactly one request" are statable.

Modelling conventions, used throughout:
* Go `url.Values` (a map from string keys to slices of strings) is an
  association list with unique keys; map iteration order is immaterial for
  every observation made here because `Encode` sorts keys and all other
  observations go through key lookup.
* Go strings are Lean `String`s; where Go works on raw bytes
  (query escaping) we expand characters to their UTF-8 bytes explicitly.
* JSON values are a small inductive type; numeric payloads are modelled as
  integers (no claim depends on non-integral numbers).
-/

namespace Syno

/-- Error values that can flow out of the client.  Go carries these as
`error` interface values; the model separates the sources so that
"propagated verbatim" claims are statable by equality. -/
inductive Err where
  /-- `errURLMisconfigured = errors.New("syno: client URL misconfigured")` -/
  | urlMisconfigured
  /-- Dereference of a nil base URL inside `Do` (Go would crash here; the
  branch is unreachable for clients built by `NewClient`). -/
  | nilURL
  /-- `type Error int`: the API error code returned on `success: false`. -/
  | api (code : Int)
  /-- a JSON decoding failure, propagated verbatim -/
  | decode (msg : String)
  /-- a failure reported by the HTTP transport, propagated verbatim -/
  | transport (msg : String)
  /-- effects of `http.DefaultTransport`, outside the model -/
  | externalNetwork
  /-- any other error, e.g. produced by a caller-supplied option -/
  | custom (msg : String)
  deriving DecidableEq, Repr

/-- Go `url.Values`: a map from keys to lists of values, here an
association list (keys unique for every value actually built by the
code, see `Values.WF`). -/
abbrev Values := List (String × List String)

/-- Map lookup: the value slice stored under `k`, `[]` when absent. -/
def Values.get (v : Values) (k : String) : List String :=
  match v.find? (fun p => p.1 == k) with
  | some p => p.2
  | none => []

/-- Go `url.Values.Add`: append one value to the slice stored under the
key, creating the entry if needed. -/
def Values.add (v : Values) (k e : String) : Values :=
  if v.any (fun p => p.1 == k) then
    v.map (fun p => if p.1 == k then (p.1, p.2 ++ [e]) else p)
  else
    v ++ [(k, [e])]

/-- Keys of a `Values` are pairwise distinct: the invariant of a Go map,
holding for every `url.Values` the Go code can construct. -/
def Values.WF (v : Values) : Prop := (v.map Prod.fst).Nodup

instance (v : Values) : Decidable (Values.WF v) := by
  unfold Values.WF; infer_instance

/--
Source `syno.go`, `dropEmpty`: iterate over the map and `Del` every key
whose value slice is exactly one empty string.  The net effect of the
range-and-delete loop is a filter.  (Go `len(v) == 1 && v[0] == ""` is
equivalent to `v = [""]`.)
-/
def dropEmpty (p : Values) : Values :=
  p.filter (fun kv => !(kv.2 == [""]))

theorem Values.get_nil (k : String) : Values.get [] k = [] := rfl

theorem Values.get_cons (k' : String) (l : List String) (v : Values) (k : String) :
    Values.get ((k', l) :: v) k = if k' = k then l else v.get k := by
  by_cases h : k' = k <;> simp [Values.get, List.find?_cons, h]

theorem Values.any_eq_false_get (v : Values) (k : String)
    (h : v.any (fun p => p.1 == k) = false) : v.get k = [] := by
  induction v with
  | nil => rfl
  | cons p v ih =>
    obtain ⟨pk, pl⟩ := p
    simp only [List.any_cons, Bool.or_eq_false_iff, beq_eq_false_iff_ne, ne_eq] at h
    rw [Values.get_cons, if_neg h.1]
    exact ih h.2

theorem Values.get_append_right (v w : Values) (k : String)
    (h : v.any (fun p => p.1 == k) = false) :
    Values.get (v ++ w) k = w.get k := by
  induction v with
  | nil => rfl
  | cons p v ih =>
    obtain ⟨pk, pl⟩ := p
    simp only [List.any_cons, Bool.or_eq_false_iff, beq_eq_false_iff_ne, ne_eq] at h
    rw [List.cons_append, Values.get_cons, if_neg h.1]
    exact ih h.2

theorem Values.get_map_bump (v : Values) (k e : String)
    (h : v.any (fun p => p.1 == k) = true) :
    Values.get (v.map (fun p => if p.1 == k then (p.1, p.2 ++ [e]) else p)) k =
      v.get k ++ [e] := by
  induction v with
  | nil => simp at h
  | cons p v ih =>
    obtain ⟨pk, pl⟩ := p
    by_cases hp : pk = k
    · simp only [List.map_cons]
      rw [if_pos (by simpa using hp)]
      rw [Values.get_cons, Values.get_cons, if_pos hp, if_pos hp]
    · simp only [List.any_cons] at h
      rw [show ((pk, pl).1 == k) = false by simpa using hp, Bool.false_or] at h
      simp only [List.map_cons]
      rw [if_neg (by simpa using hp)]
      rw [Values.get_cons, Values.get_cons, if_neg hp, if_neg hp]
      exact ih h

theorem Values.get_map_bump_ne (v : Values) (k' e k : String) (h : k' ≠ k) :
    Values.get (v.map (fun p => if p.1 == k' then (p.1, p.2 ++ [e]) else p)) k =
      v.get k := by
  induction v with
  | nil => rfl
  | cons p v ih =>
    obtain ⟨pk, pl⟩ := p
    by_cases hp : pk = k'
    · simp only [List.map_cons]
      rw [if_pos (by simpa using hp)]
      rw [Values.get_cons, Values.get_cons]
      have hne : pk ≠ k := fun hh => h (hp ▸ hh ▸ rfl)
      rw [if_neg hne, if_neg hne]
      exact ih
    · simp only [List.map_cons]
      rw [if_neg (by simpa using hp)]
      rw [Values.get_cons, Values.get_cons]
      by_cases hk : pk = k
      · rw [if_pos hk, if_pos hk]
      · rw [if_neg hk, if_neg hk]
        exact ih

/-- `Add` appends to the slice observed under the same key. -/
theorem Values.get_add_self (v : Values) (k e : String) :
    (v.add k e).get k = v.get k ++ [e] := by
  unfold Values.add
  by_cases hany : v.any (fun p => p.1 == k) = true
  · rw [if_pos hany]
    exact Values.get_map_bump v k e hany
  · rw [if_neg hany]
    rw [Bool.not_eq_true] at hany
    rw [Values.get_append_right v _ k hany, Values.any_eq_false_get v k hany]
    rw [Values.get_cons, if_pos rfl]
    rfl

theorem Values.get_append_single_ne (v : Values) (k' e k : String) (h : k' ≠ k) :
    Values.get (v ++ [(k', [e])]) k = v.get k := by
  induction v with
  | nil => rw [List.nil_append, Values.get_cons, if_neg h]
  | cons p v ih =>
    obtain ⟨pk, pl⟩ := p
    rw [List.cons_append, Values.get_cons, Values.get_cons]
    by_cases hk : pk = k
    · rw [if_pos hk, if_pos hk]
    · rw [if_neg hk, if_neg hk]
      exact ih

/-- `Add` does not change the slice observed under a different key. -/
theorem Values.get_add_ne (v : Values) (k' e k : String) (h : k' ≠ k) :
    (v.add k' e).get k = v.get k := by
  unfold Values.add
  by_cases hany : v.any (fun p => p.1 == k') = true
  · rw [if_pos hany]
    exact Values.get_map_bump_ne v k' e k h
  · rw [if_neg hany]
    exact Values.get_append_single_ne v k' e k h

theorem Values.get_eq_nil_of_not_mem_fst (v : Values) (k : String)
    (h : k ∉ v.map Prod.fst) : v.get k = [] := by
  induction v with
  | nil => rfl
  | cons p v ih =>
    obtain ⟨pk, pl⟩ := p
    simp only [List.map_cons, List.mem_cons, not_or] at h
    rw [Values.get_cons, if_neg (fun hh => h.1 hh.symm)]
    exact ih h.2

theorem Values.mem_fst_of_get_ne_nil (v : Values) (k : String)
    (h : v.get k ≠ []) : k ∈ v.map Prod.fst := by
  by_contra hmem
  exact h (Values.get_eq_nil_of_not_mem_fst v k hmem)

/-- What `dropEmpty` does to each lookup: the slice `[""]` becomes absent,
every other slice is untouched (for well-formed, i.e. map-like, values). -/
theorem Values.get_dropEmpty (v : Values) (k : String) (h : v.WF) :
    (dropEmpty v).get k = if v.get k = [""] then [] else v.get k := by
  induction v with
  | nil => simp [dropEmpty, Values.get_nil]
  | cons p v ih =>
    obtain ⟨pk, pl⟩ := p
    simp only [Values.WF, List.map_cons, List.nodup_cons] at h
    obtain ⟨hnm, hwf⟩ := h
    have ih' := ih hwf
    by_cases hk : pk = k
    · subst hk
      have hv : Values.get v pk = [] := Values.get_eq_nil_of_not_mem_fst v pk hnm
      rw [Values.get_cons, if_pos rfl]
      by_cases hpl : pl = [""]
      · rw [if_pos hpl]
        have : dropEmpty ((pk, pl) :: v) = dropEmpty v := by
          simp [dropEmpty, hpl]
        rw [this, ih', hv]
        simp
      · rw [if_neg hpl]
        have : dropEmpty ((pk, pl) :: v) = (pk, pl) :: dropEmpty v := by
          simp [dropEmpty, hpl]
        rw [this, Values.get_cons, if_pos rfl]
    · rw [Values.get_cons, if_neg hk]
      by_cases hpl : pl = [""]
      · have : dropEmpty ((pk, pl) :: v) = dropEmpty v := by
          simp [dropEmpty, hpl]
        rw [this, ih']
      · have : dropEmpty ((pk, pl) :: v) = (pk, pl) :: dropEmpty v := by
          simp [dropEmpty, hpl]
        rw [this, Values.get_cons, if_neg hk, ih']

/--
Source `Client.Do`, lines 110 to 114: merge the parameters of the request
into the outgoing set, preserving multi-valued keys:
for each key of `r.Params`, `Add` each of its values in turn.
-/
def mergeParams (v ps : Values) : Values :=
  ps.foldl (fun acc kl => kl.2.foldl (fun a e => a.add kl.1 e) acc) v

/-- The values that the merge loop contributes under key `k`
(a specification helper, not part of the embedded code). -/
def Values.mergeGet : Values → String → List String
  | [], _ => []
  | p :: ps, k => (if p.1 = k then p.2 else []) ++ Values.mergeGet ps k

theorem Values.addAll_get_self (l : List String) (v : Values) (k : String) :
    (l.foldl (fun a e => Values.add a k e) v).get k = v.get k ++ l := by
  induction l generalizing v with
  | nil => simp
  | cons e es ih =>
    rw [List.foldl_cons, ih, Values.get_add_self]
    simp

theorem Values.addAll_get_ne (l : List String) (v : Values) (k' k : String)
    (h : k' ≠ k) :
    (l.foldl (fun a e => Values.add a k' e) v).get k = v.get k := by
  induction l generalizing v with
  | nil => rfl
  | cons e es ih =>
    rw [List.foldl_cons, ih, Values.get_add_ne _ _ _ _ h]

theorem Values.mergeGet_cons (p : String × List String) (ps : Values) (k : String) :
    Values.mergeGet (p :: ps) k =
      (if p.1 = k then p.2 else []) ++ ps.mergeGet k := rfl

/-- Lookup after the merge loop: the original slice followed by every
value the request parameters carry under that key. -/
theorem Values.get_mergeParams (v ps : Values) (k : String) :
    (mergeParams v ps).get k = v.get k ++ ps.mergeGet k := by
  induction ps generalizing v with
  | nil => simp [mergeParams, Values.mergeGet]
  | cons p ps ih =>
    obtain ⟨pk, pl⟩ := p
    rw [show mergeParams v ((pk, pl) :: ps) =
      mergeParams (pl.foldl (fun a e => Values.add a pk e) v) ps from rfl]
    rw [ih, Values.mergeGet_cons]
    by_cases hk : pk = k
    · subst hk
      rw [Values.addAll_get_self]
      simp
    · rw [Values.addAll_get_ne _ _ _ _ hk]
      simp [hk]

theorem Values.mergeGet_eq_nil (ps : Values) (k : String)
    (h : ∀ p ∈ ps, p.1 = k → p.2 = []) : ps.mergeGet k = [] := by
  induction ps with
  | nil => rfl
  | cons p ps ih =>
    rw [Values.mergeGet_cons]
    by_cases hk : p.1 = k
    · rw [if_pos hk, h p (List.mem_cons_self _ _) hk]
      exact ih (fun q hq => h q (List.mem_cons_of_mem _ hq))
    · rw [if_neg hk]
      exact ih (fun q hq => h q (List.mem_cons_of_mem _ hq))

/-- Lexicographic comparison of character lists; on UTF-8 encoded strings
this agrees with the byte-wise order used by Go `sort.Strings`. -/
def charListLe : List Char → List Char → Bool
  | [], _ => true
  | _ :: _, [] => false
  | a :: as, b :: bs => if a = b then charListLe as bs else decide (a < b)

def strLeB (a b : String) : Bool := charListLe a.data b.data

def insertSorted (x : String) : List String → List String
  | [] => [x]
  | y :: ys => if strLeB x y then x :: y :: ys else y :: insertSorted x ys

/-- Go `sort.Strings`: ascending lexicographic sort (insertion sort model;
`Encode` only depends on the sorted order, not the algorithm). -/
def sortStrings : List String → List String
  | [] => []
  | x :: xs => insertSorted x (sortStrings xs)

theorem mem_insertSorted (a x : String) (l : List String) :
    a ∈ insertSorted x l ↔ a = x ∨ a ∈ l := by
  induction l with
  | nil => simp [insertSorted]
  | cons y ys ih =>
    unfold insertSorted
    by_cases h : strLeB x y = true
    · simp [h]
    · simp only [if_neg h, List.mem_cons, ih]
      tauto

theorem mem_sortStrings (a : String) (l : List String) :
    a ∈ sortStrings l ↔ a ∈ l := by
  induction l with
  | nil => simp [sortStrings]
  | cons x xs ih =>
    unfold sortStrings
    rw [mem_insertSorted]
    simp [ih]

/-- UTF-8 encoding of a single code point, as lists of byte values (Go
strings are byte strings; escaping works on bytes). -/
def utf8EncodeChar (n : Nat) : List Nat :=
  if n < 128 then [n]
  else if n < 2048 then [192 + n / 64, 128 + n % 64]
  else if n < 65536 then [224 + n / 4096, 128 + n / 64 % 64, 128 + n % 64]
  else [240 + n / 262144, 128 + n / 4096 % 64, 128 + n / 64 % 64, 128 + n % 64]

/-- The UTF-8 bytes of a string. -/
def utf8Bytes (s : String) : List Nat :=
  (s.data.map (fun c => utf8EncodeChar c.toNat)).flatten

def hexUpperDigit (n : Nat) : Char :=
  ['0', '1', '2', '3', '4', '5', '6', '7', '8', '9',
    'A', 'B', 'C', 'D', 'E', 'F'].getD n '0'

/-- Go `net/url.shouldEscape(c, encodeQueryComponent)`: keep alphanumerics
and `-`, `_`, `.`, `~`; escape every other byte. -/
def shouldEscapeQuery (b : Nat) : Bool :=
  if (97 ≤ b ∧ b ≤ 122) ∨ (65 ≤ b ∧ b ≤ 90) ∨ (48 ≤ b ∧ b ≤ 57) then false
  else if b = 45 ∨ b = 95 ∨ b = 46 ∨ b = 126 then false
  else true

/-- One byte of Go query escaping: space becomes `+`, escaped bytes become
percent plus two upper-case hex digits, the rest pass through. -/
def escapeQueryByte (b : Nat) : List Char :=
  if shouldEscapeQuery b then
    if b = 32 then ['+']
    else ['%', hexUpperDigit (b / 16), hexUpperDigit (b % 16)]
  else [Char.ofNat b]

/-- Go `url.QueryEscape`. -/
def queryEscape (s : String) : String :=
  ⟨((utf8Bytes s).map escapeQueryByte).flatten⟩

/-- One iteration of the inner loop of Go `url.Values.Encode`: separate
with `&` when the buffer is non-empty, then write `key=value`, both
query-escaped. -/
def encodeStep (k buf e : String) : String :=
  (if buf.length > 0 then buf ++ "&" else buf) ++ queryEscape k ++ "=" ++ queryEscape e

/-- Go `url.Values.Encode`: iterate over the keys in sorted order and over
each value slice in order, writing `k=v` pairs separated by `&`. -/
def Values.encode (v : Values) : String :=
  (sortStrings (v.map Prod.fst)).foldl
    (fun buf k => (Values.get v k).foldl (encodeStep k) buf) ""

theorem encodeStep_ne_empty (k buf e : String) : encodeStep k buf e ≠ "" := by
  intro h
  have h' := congrArg String.length h
  have h1 : ∀ a b : String, (a ++ b).length = a.length + b.length :=
    fun a b => String.length_append a b
  rw [encodeStep, h1, h1, h1] at h'
  have h2 : ("=" : String).length = 1 := rfl
  have h3 : ("" : String).length = 0 := rfl
  rw [h2, h3] at h'
  omega

theorem foldl_encodeStep_pres (k : String) (l : List String) (buf : String)
    (h : buf ≠ "") : l.foldl (encodeStep k) buf ≠ "" := by
  induction l generalizing buf with
  | nil => exact h
  | cons e es ih =>
    rw [List.foldl_cons]
    exact ih _ (encodeStep_ne_empty k buf e)

theorem foldl_encodeStep_ne_empty (k : String) (l : List String) (buf : String)
    (h : l ≠ []) : l.foldl (encodeStep k) buf ≠ "" := by
  cases l with
  | nil => exact absurd rfl h
  | cons e es =>
    rw [List.foldl_cons]
    exact foldl_encodeStep_pres k es _ (encodeStep_ne_empty k buf e)

theorem encode_outer_ne_empty (v : Values) (keys : List String) (buf : String)
    (h : buf ≠ "" ∨ ∃ k ∈ keys, Values.get v k ≠ []) :
    keys.foldl (fun buf k => (Values.get v k).foldl (encodeStep k) buf) buf ≠ "" := by
  induction keys generalizing buf with
  | nil =>
    rcases h with h | ⟨k, hk, _⟩
    · exact h
    · exact absurd hk (List.not_mem_nil k)
  | cons k' ks ih =>
    rw [List.foldl_cons]
    rcases h with h | ⟨k, hk, hg⟩
    · exact ih _ (Or.inl (foldl_encodeStep_pres k' _ _ h))
    · rcases List.mem_cons.mp hk with rfl | hk'
      · by_cases hv : Values.get v k = []
        · exact absurd hv hg
        · exact ih _ (Or.inl (foldl_encodeStep_ne_empty k _ _ hv))
      · by_cases hbuf : (Values.get v k').foldl (encodeStep k') buf = ""
        · exact ih _ (Or.inr ⟨k, hk', hg⟩)
        · exact ih _ (Or.inl hbuf)

/-- The encoded query is non-empty as soon as some key holds a value. -/
theorem Values.encode_ne_empty (v : Values) (k : String)
    (hg : Values.get v k ≠ []) : v.encode ≠ "" := by
  unfold Values.encode
  exact encode_outer_ne_empty v _ ""
    (Or.inr ⟨k, (mem_sortStrings _ _).mpr (Values.mem_fst_of_get_ne_nil v k hg), hg⟩)

/-- Go `base[:strings.LastIndex(base, "/")+1]`: everything up to and
including the last slash, empty when there is no slash. -/
def upToLastSlash (base : List Char) : List Char :=
  let parts := base.splitOn '/'
  if parts.length ≤ 1 then [] else List.intercalate ['/'] parts.dropLast ++ ['/']

/-- The segment loop of Go `net/url.resolvePath`: `.` is dropped, `..`
pops the last output segment, everything else is appended. -/
def cleanSegs : List (List Char) → List (List Char) → List (List Char)
  | dst, [] => dst
  | dst, seg :: rest =>
    if seg = ['.'] then cleanSegs dst rest
    else if seg = ['.', '.'] then cleanSegs dst.dropLast rest
    else cleanSegs (dst ++ [seg]) rest

/-- Trailing-slash restoration of Go `resolvePath`: when the last input
segment was a dot segment the output keeps a trailing slash. -/
def lastSegSlash (src dst : List (List Char)) : List (List Char) :=
  match src.getLast? with
  | some e => if e = ['.'] ∨ e = ['.', '.'] then dst ++ [[]] else dst
  | none => dst

/-- Final step of Go `resolvePath`: join the segments with slashes and
root the result (`"/" + strings.TrimPrefix(strings.Join(dst, "/"), "/")`). -/
def rootJoin (dst : List (List Char)) : List Char :=
  '/' :: (match List.intercalate ['/'] dst with
          | '/' :: t => t
          | l => l)

/-- Dot-segment removal of Go `resolvePath`, applied to the merged path. -/
def resolvePathFull (full : List Char) : List Char :=
  if full = [] then []
  else rootJoin (lastSegSlash (full.splitOn '/') (cleanSegs [] (full.splitOn '/')))

/--
Go `net/url.resolvePath(base, ref)`, on character lists: merge `ref` into
`base` (an absolute reference replaces it, a relative one replaces the
part after the last slash), then remove the dot segments, append a final
slash when the last segment was a dot, and root the result.
-/
def resolvePathL (base ref : List Char) : List Char :=
  resolvePathFull
    (match ref with
     | [] => base
     | c :: _ => if c = '/' then ref else upToLastSlash base ++ ref)

/-- Go `net/url.resolvePath` on strings. -/
def resolvePath (base ref : String) : String :=
  ⟨resolvePathL base.data ref.data⟩

/--
Go `url.URL`, restricted to the components this client can produce or
consume.  `User`, `Opaque`, `ForceQuery` and the fragment fields are
omitted: nothing in `syno.go` sets or reads them and the reference URL
built by `Do` always has them empty.  Percent-escaping of paths
(`EscapedPath`/`setPath`) is modelled as the identity: the path is kept in
unescaped form.
-/
structure URL where
  scheme : String
  host : String
  path : String
  rawQuery : String
  deriving DecidableEq, Repr

/-- Go `url.URL.IsAbs`: a URL is absolute when it has a scheme. -/
def URL.isAbs (u : URL) : Bool := u.scheme != ""

/--
Go `url.URL.ResolveReference(ref)` for the omitted-field-free fragment of
`url.URL` above: an absolute or host-carrying reference wins outright; an
empty path-and-query reference inherits the base query; otherwise host
comes from the base and the path is resolved relative to the base path.
-/
def URL.resolveReference (u ref : URL) : URL :=
  let url : URL := { ref with scheme := if ref.scheme = "" then u.scheme else ref.scheme }
  if ref.scheme ≠ "" ∨ ref.host ≠ "" then
    { url with path := resolvePath ref.path "" }
  else
    let url := if ref.path = "" ∧ ref.rawQuery = "" then { url with rawQuery := u.rawQuery } else url
    { url with host := u.host, path := resolvePath u.path ref.path }

theorem cleanSegs_no_dots (l : List (List Char)) (dst : List (List Char))
    (h : ∀ s ∈ l, s ≠ ['.'] ∧ s ≠ ['.', '.']) : cleanSegs dst l = dst ++ l := by
  induction l generalizing dst with
  | nil => simp [cleanSegs]
  | cons seg rest ih =>
    have hseg := h seg (List.mem_cons_self _ _)
    rw [cleanSegs, if_neg hseg.1, if_neg hseg.2,
      ih _ (fun s hs => h s (List.mem_cons_of_mem _ hs))]
    simp

/-- A rooted reference path free of dot segments passes through
`resolvePath` unchanged, whatever the base path is. -/
theorem resolvePathL_rooted (base : List Char) (t : List Char)
    (h : ∀ s ∈ ('/' :: t).splitOn '/', s ≠ ['.'] ∧ s ≠ ['.', '.']) :
    resolvePathL base ('/' :: t) = '/' :: t := by
  have e1 : resolvePathL base ('/' :: t) = resolvePathFull ('/' :: t) := rfl
  rw [e1, resolvePathFull, if_neg (by simp)]
  have hsrc_ne : ('/' :: t).splitOn '/' ≠ [] := by
    simp only [List.splitOn]
    exact List.splitOnP_ne_nil _ _
  have hclean : cleanSegs [] (('/' :: t).splitOn '/') = ('/' :: t).splitOn '/' :=
    cleanSegs_no_dots _ [] h
  cases hlast : (('/' :: t).splitOn '/').getLast? with
  | none => exact absurd (List.getLast?_eq_none_iff.mp hlast) hsrc_ne
  | some e =>
    have he_mem : e ∈ ('/' :: t).splitOn '/' := by
      obtain ⟨hne', heq⟩ := List.mem_getLast?_eq_getLast (show e ∈ _ from hlast)
      rw [heq]
      exact List.getLast_mem hne'
    have he := h e he_mem
    rw [hclean]
    simp only [lastSegSlash, hlast]
    rw [if_neg (not_or.mpr ⟨he.1, he.2⟩)]
    simp only [rootJoin]
    rw [List.intercalate_splitOn ('/' :: t) '/']
    rfl

/-- A JSON value (numbers as integers; see the header note). -/
inductive Json where
  | null
  | bool (b : Bool)
  | num (n : Int)
  | str (s : String)
  | arr (xs : List Json)
  | obj (fields : List (String × Json))

/-- `type Error int`: the integer error code returned by the API. -/
abbrev Error := Int

def ErrorUnknown : Error := 100
def ErrorInvalidParameter : Error := 101
def ErrorInvalidAPI : Error := 102
def ErrorInvalidMethod : Error := 103
def ErrorUnsupportedVersion : Error := 104
def ErrorPermissionDenied : Error := 105
def ErrorSessionTimeout : Error := 106
def ErrorSessionInterruptedDuplicateLogin : Error := 107

/-- `var errStrings = map[Error]string` (source order; lookup is by key,
so the order is immaterial). -/
def errStrings : List (Error × String) :=
  [(ErrorUnknown, "unknown API error"),
   (ErrorInvalidParameter, "invalid parameter"),
   (ErrorInvalidAPI, "invalid API"),
   (ErrorInvalidMethod, "invalid method"),
   (ErrorUnsupportedVersion, "unsupported version"),
   (ErrorPermissionDenied, "permission denined"),
   (ErrorSessionTimeout, "session timeout error"),
   (ErrorSessionInterruptedDuplicateLogin, "session interrupted with duplicated login")]

/-- `func (e Error) Error() string`: human readable rendering
(`fmt.Sprint` inserts no separator between string operands and an
adjacent integer operand). -/
def Error.Error (e : Error) : String :=
  match errStrings.find? (fun p => p.1 == e) with
  | some p => "syno: " ++ p.2 ++ " (" ++ toString e ++ ")"
  | none => "syno: error code " ++ toString e

/-- The `Error` field of the response envelope (`struct{ Code Error }`). -/
structure EnvError where
  Code : Error
  deriving DecidableEq, Repr

/-- The uniform response envelope, decoded once per call
(`var synologyResponse struct ...` with fields `Success bool`,
`Error struct{ Code Error }` and `Data json.RawMessage`). -/
structure Envelope where
  Success : Bool
  Error : EnvError
  Data : Json

/-- An HTTP response body as the JSON decoder sees it: either malformed
(the decoder fails with the given message) or a well-formed envelope. -/
inductive Body where
  | malformed (msg : String)
  | env (e : Envelope)

/-- `json.NewDecoder(hres.Body).Decode(&synologyResponse)`. -/
def decodeEnvelope : Body → Except Err Envelope
  | .malformed msg => .error (.decode msg)
  | .env e => .ok e

/-- `type Request struct` from `syno.go`. -/
structure Request where
  Path : String
  API : String
  Version : String
  Method : String
  Params : Values
  SID : String

/--
Lines 99 to 114 of `Client.Do`: start from `api`, `version`, `method`,
add `_sid` preferring the Request SID over the client SID, then merge
every request parameter.  `csid` is the client field `c.sid`.
-/
def outgoingValues (csid : String) (r : Request) : Values :=
  let v : Values :=
    Values.add (Values.add (Values.add [] "api" r.API) "version" r.Version) "method" r.Method
  let v := if r.SID ≠ "" then v.add "_sid" r.SID else if csid ≠ "" then v.add "_sid" csid else v
  mergeParams v r.Params

/-- The outgoing HTTP request of `Client.Do` (method GET, URL resolved
against the base URL, query from the encoded outgoing values). -/
structure HTTPReq where
  method : String
  url : URL
  deriving DecidableEq, Repr

def httpReq (base : URL) (csid : String) (r : Request) : HTTPReq :=
  { method := "GET"
    url := base.resolveReference
      { scheme := "", host := "", path := r.Path, rawQuery := (outgoingValues csid r).encode } }

/-- The network calls a computation performed, in order. -/
abbrev Trace := List HTTPReq

/-- The HTTP transport capability (`http.RoundTripper`).  The platform
default (`http.DefaultTransport`) performs real network input and output,
which is outside the model: its round trips are an opaque external
effect. -/
inductive Transport where
  | defaultTransport
  | roundTripper (f : HTTPReq → Except Err Body)

def Transport.RoundTrip : Transport → HTTPReq → Except Err Body
  | .defaultTransport, _ => .error .externalNetwork
  | .roundTripper f, req => f req

/-- `type Client struct` with fields `url *url.URL`,
`transport http.RoundTripper` and `sid string`. -/
structure Client where
  url : Option URL
  transport : Transport
  sid : String

/--
`func (c *Client) Do(r *Request, data ...)` — the destination pointer is
modelled as an optional decoder from the `data` payload into the
destination type, and the network call is recorded in the trace.  The
`none` URL branch stands for the nil-pointer crash Go would have there;
`NewClient` never lets such a client out.
-/
def Client.Do {α : Type} (c : Client) (r : Request)
    (dec : Option (Json → Except Err α)) : Trace × Except Err (Option α) :=
  match c.url with
  | none => ([], .error .nilURL)
  | some base =>
    let req := httpReq base c.sid r
    match c.transport.RoundTrip req with
    | .error e => ([req], .error e)
    | .ok body =>
      match decodeEnvelope body with
      | .error e => ([req], .error e)
      | .ok env =>
        if !env.Success then ([req], .error (.api env.Error.Code))
        else
          match dec with
          | none => ([req], .ok none)
          | some d =>
            match d env.Data with
            | .error e => ([req], .error e)
            | .ok a => ([req], .ok (some a))

/-- The `MarshalRequest` interface: anything that can serialize itself to
a `Request` or fail. -/
structure Marshaler where
  MarshalRequest : Except Err Request

/-- `func (c *Client) Call(r MarshalRequest, data ...)`. -/
def Client.Call {α : Type} (c : Client) (m : Marshaler)
    (dec : Option (Json → Except Err α)) : Trace × Except Err (Option α) :=
  match m.MarshalRequest with
  | .error e => ([], .error e)
  | .ok req => c.Do req dec

/-- `type ClientOption func(*Client) error`, with the network calls the
option makes recorded in a trace. -/
abbrev ClientOption := Client → Trace × Except Err Client

/-- `func ClientURL(u *url.URL) ClientOption`. -/
def ClientURL (u : URL) : ClientOption := fun c => ([], .ok { c with url := some u })

/-- `func ClientTransport(t http.RoundTripper) ClientOption`. -/
def ClientTransport (t : Transport) : ClientOption :=
  fun c => ([], .ok { c with transport := t })

/-- `func ClientSID(sid string) ClientOption`. -/
def ClientSID (sid : String) : ClientOption := fun c => ([], .ok { c with sid := sid })

def authLoginPath : String := "/webapi/auth.cgi"
def authLoginAPI : String := "SYNO.API.Auth"
def authLoginVersion : String := "3"

/-- `type AuthLogin struct`. -/
structure AuthLogin where
  Account : String
  Password : String
  Session : String
  Format : String
  OTPCode : String
  deriving DecidableEq, Repr

/-- `func (a AuthLogin) MarshalRequest() (*Request, error)`. -/
def AuthLogin.MarshalRequest (a : AuthLogin) : Except Err Request :=
  .ok { Path := authLoginPath, API := authLoginAPI, Version := authLoginVersion,
        Method := "login",
        Params := dropEmpty
          [("account", [a.Account]), ("passwd", [a.Password]),
           ("session", [a.Session]), ("format", [a.Format]),
           ("otp_code", [a.OTPCode])],
        SID := "" }

/-- `type AuthLoginResponse struct { SID, Cookie string }`. -/
structure AuthLoginResponse where
  SID : String
  Cookie : String
  deriving DecidableEq, Repr

/-- One string-typed struct field under `json.Unmarshal`: a missing or
null field keeps the zero value, a non-string value is a decode error
(field matching is case-insensitive; the wire keys are lower case). -/
def jsonStringField (fields : List (String × Json)) (k : String) : Except Err String :=
  match fields.find? (fun p => p.1.toLower == k) with
  | none => .ok ""
  | some (_, .str s) => .ok s
  | some (_, .null) => .ok ""
  | some _ => .error (.decode "cannot unmarshal into string")

/-- `json.Unmarshal` of the login payload into `AuthLoginResponse`. -/
def decodeAuthLoginResponse : Json → Except Err AuthLoginResponse
  | .null => .ok { SID := "", Cookie := "" }
  | .obj fields =>
    match jsonStringField fields "sid", jsonStringField fields "cookie" with
    | .ok s, .ok ck => .ok { SID := s, Cookie := ck }
    | .error e, _ => .error e
    | _, .error e => .error e
  | _ => .error (.decode "cannot unmarshal into AuthLoginResponse")

/--
`func ClientLogin(l AuthLogin) ClientOption`: overwrite `l.Format` with
"sid", run `c.Call(l, &res)` on the client as configured so far, and on
success store the session id of the response in the client.
-/
def ClientLogin (l : AuthLogin) : ClientOption := fun c =>
  match c.Call ⟨({ l with Format := "sid" } : AuthLogin).MarshalRequest⟩
      (some decodeAuthLoginResponse) with
  | (tr, .error e) => (tr, .error e)
  | (tr, .ok res) => (tr, .ok { c with sid := (res.getD { SID := "", Cookie := "" }).SID })

/-- The option loop of `NewClient`: apply each option in order, stopping
at the first failure. -/
def applyOptions : List ClientOption → Client → Trace × Except Err Client
  | [], c => ([], .ok c)
  | o :: os, c =>
    match o c with
    | (tr, .error e) => (tr, .error e)
    | (tr, .ok c') =>
      let rest := applyOptions os c'
      (tr ++ rest.1, rest.2)

/-- `c := Client{transport: http.DefaultTransport}`. -/
def initClient : Client := { url := none, transport := .defaultTransport, sid := "" }

/-- `func NewClient(options ...ClientOption) (*Client, error)`. -/
def NewClient (options : List ClientOption) : Trace × Except Err Client :=
  match applyOptions options initClient with
  | (tr, .error e) => (tr, .error e)
  | (tr, .ok c) =>
    match c.url with
    | none => (tr, .error .urlMisconfigured)
    | some u => if u.isAbs then (tr, .ok c) else (tr, .error .urlMisconfigured)

def downloadTaskPath : String := "/webapi/DownloadStation/task.cgi"
def downloadTaskAPI : String := "SYNO.DownloadStation.Task"
def downloadTaskVersion : String := "1"

/-- `type DownloadTaskList struct { Offset, Limit int; Additional []string }`. -/
structure DownloadTaskList where
  Offset : Int
  Limit : Int
  Additional : List String
  deriving DecidableEq, Repr

/-- `func (d DownloadTaskList) MarshalRequest() (*Request, error)`:
zero integers are omitted, a non-empty list is comma-joined. -/
def DownloadTaskList.MarshalRequest (d : DownloadTaskList) : Except Err Request :=
  let v : Values := []
  let v := if d.Offset ≠ 0 then v.add "offset" (toString d.Offset) else v
  let v := if d.Limit ≠ 0 then v.add "limit" (toString d.Limit) else v
  let v := if d.Additional.length > 0 then
      v.add "additional" (String.intercalate "," d.Additional)
    else v
  .ok { Path := downloadTaskPath, API := downloadTaskAPI,
        Version := downloadTaskVersion, Method := "list", Params := v, SID := "" }

/-- `type DownloadTaskCreate struct`. -/
structure DownloadTaskCreate where
  URI : String
  Username : String
  Password : String
  UnzipPassword : String
  Destination : String
  deriving DecidableEq, Repr

/-- `func (d DownloadTaskCreate) MarshalRequest() (*Request, error)`. -/
def DownloadTaskCreate.MarshalRequest (d : DownloadTaskCreate) : Except Err Request :=
  .ok { Path := downloadTaskPath, API := downloadTaskAPI,
        Version := downloadTaskVersion, Method := "create",
        Params := dropEmpty
          [("uri", [d.URI]), ("username", [d.Username]),
           ("password", [d.Password]), ("unzip_password", [d.UnzipPassword]),
           ("destination", [d.Destination])],
        SID := "" }

/-! ## Helper lemmas about the embedded operations -/

/-- The first three outgoing parameters, written out. -/
theorem baseValues_eq (r : Request) :
    Values.add (Values.add (Values.add ([] : Values) "api" r.API) "version" r.Version)
        "method" r.Method =
      [("api", [r.API]), ("version", [r.Version]), ("method", [r.Method])] := rfl

/-- Outgoing lookup under any key other than `_sid`: the fixed triple
followed by whatever the request parameters contribute. -/
theorem outgoing_get (csid : String) (r : Request) (k : String) (hk : k ≠ "_sid") :
    Values.get (outgoingValues csid r) k =
      Values.get [("api", [r.API]), ("version", [r.Version]), ("method", [r.Method])] k
        ++ Values.mergeGet r.Params k := by
  unfold outgoingValues
  simp only
  rw [Values.get_mergeParams]
  congr 1
  rw [← baseValues_eq r]
  by_cases hS : r.SID ≠ ""
  · rw [if_pos hS, Values.get_add_ne _ _ _ _ (Ne.symm hk)]
  · rw [if_neg hS]
    by_cases hc : csid ≠ ""
    · rw [if_pos hc, Values.get_add_ne _ _ _ _ (Ne.symm hk)]
    · rw [if_neg hc]

/-- Outgoing lookup under `_sid`: the resolved session id (Request SID
preferred, then client SID, then nothing) followed by whatever the
request parameters contribute under `_sid`. -/
theorem outgoing_get_sid (csid : String) (r : Request) :
    Values.get (outgoingValues csid r) "_sid" =
      (if r.SID ≠ "" then [r.SID] else if csid ≠ "" then [csid] else [])
        ++ Values.mergeGet r.Params "_sid" := by
  unfold outgoingValues
  simp only
  rw [Values.get_mergeParams]
  congr 1
  have hbase : Values.get
      (Values.add (Values.add (Values.add ([] : Values) "api" r.API) "version" r.Version)
        "method" r.Method) "_sid" = [] := by
    rw [baseValues_eq r, Values.get_cons, if_neg (by decide), Values.get_cons,
      if_neg (by decide), Values.get_cons, if_neg (by decide)]
    exact Values.get_nil _
  by_cases hS : r.SID ≠ ""
  · rw [if_pos hS, if_pos hS, Values.get_add_self, hbase]
    rfl
  · rw [if_neg hS, if_neg hS]
    by_cases hc : csid ≠ ""
    · rw [if_pos hc, if_pos hc, Values.get_add_self, hbase]
      rfl
    · rw [if_neg hc, if_neg hc, hbase]

/-- The `api` key always holds a value in the outgoing set. -/
theorem outgoing_get_api_ne_nil (csid : String) (r : Request) :
    Values.get (outgoingValues csid r) "api" ≠ [] := by
  rw [outgoing_get csid r "api" (by decide), Values.get_cons, if_pos rfl]
  exact List.cons_ne_nil _ _

/-- The resolution `Do` performs, for the reference URL it always builds
(no scheme, no host, non-empty query). -/
theorem resolveReference_from_do (u : URL) (p q : String) (hq : q ≠ "") :
    u.resolveReference { scheme := "", host := "", path := p, rawQuery := q } =
      { scheme := u.scheme, host := u.host, path := resolvePath u.path p, rawQuery := q } := by
  unfold URL.resolveReference
  simp [hq]

/-- `Do` sends exactly one request whenever the base URL is set, whatever
the transport answers. -/
theorem do_fst {α : Type} (c : Client) (r : Request)
    (dec : Option (Json → Except Err α)) (base : URL) (hc : c.url = some base) :
    (c.Do r dec).1 = [httpReq base c.sid r] := by
  cases hrt : Transport.RoundTrip c.transport (httpReq base c.sid r) with
  | error e => simp [Client.Do, hc, hrt]
  | ok body =>
    cases hde : decodeEnvelope body with
    | error e => simp [Client.Do, hc, hrt, hde]
    | ok env =>
      by_cases hs : env.Success
      · cases dec with
        | none => simp [Client.Do, hc, hrt, hde, hs]
        | some d =>
          cases hd : d env.Data with
          | error e => simp [Client.Do, hc, hrt, hde, hs, hd]
          | ok a => simp [Client.Do, hc, hrt, hde, hs, hd]
      · rw [Bool.not_eq_true] at hs
        simp [Client.Do, hc, hrt, hde, hs]

/-- `Call` after a successful marshal is `Do` on the produced request. -/
theorem call_ok {α : Type} (c : Client) (m : Marshaler)
    (dec : Option (Json → Except Err α)) (req : Request)
    (hm : m.MarshalRequest = .ok req) : c.Call m dec = c.Do req dec := by
  unfold Client.Call
  rw [hm]

/-- `ClientLogin` issues exactly the requests its inner `Call` issues. -/
theorem clientLogin_fst (l : AuthLogin) (c : Client) :
    (ClientLogin l c).1 =
      (c.Call ⟨({ l with Format := "sid" } : AuthLogin).MarshalRequest⟩
        (some decodeAuthLoginResponse)).1 := by
  unfold ClientLogin
  cases hcall : c.Call ⟨({ l with Format := "sid" } : AuthLogin).MarshalRequest⟩
      (some decodeAuthLoginResponse) with
  | mk tr res =>
    cases res with
    | error e => rfl
    | ok a => rfl

/-- Splitting the option loop over a concatenation. -/
theorem applyOptions_append (xs ys : List ClientOption) (c : Client) :
    applyOptions (xs ++ ys) c =
      match applyOptions xs c with
      | (tr, .error e) => (tr, .error e)
      | (tr, .ok c') => (tr ++ (applyOptions ys c').1, (applyOptions ys c').2) := by
  induction xs generalizing c with
  | nil =>
    simp only [List.nil_append, applyOptions]
  | cons o xs ih =>
    simp only [List.cons_append, applyOptions]
    cases ho : o c with
    | mk tr1 r1 =>
      cases r1 with
      | error e => rfl
      | ok c1 =>
        simp only [List.append_eq]
        rw [ih c1]
        cases happ : applyOptions xs c1 with
        | mk tr2 r2 =>
          cases r2 with
          | error e => rfl
          | ok c2 => simp [List.append_assoc]

/-- Options that do not touch the transport leave the option loop with
the transport it started from. -/
theorem applyOptions_transport (os : List ClientOption)
    (h : ∀ o ∈ os, ∀ cl tr cl', o cl = (tr, .ok cl') → cl'.transport = cl.transport) :
    ∀ c tr c', applyOptions os c = (tr, .ok c') → c'.transport = c.transport := by
  induction os with
  | nil =>
    intro c tr c' h1
    unfold applyOptions at h1
    rw [Prod.ext_iff] at h1
    obtain ⟨-, h2⟩ := h1
    cases h2
    rfl
  | cons o os ih =>
    intro c tr c' h1
    unfold applyOptions at h1
    cases ho : o c with
    | mk tr1 r1 =>
      rw [ho] at h1
      cases r1 with
      | error e =>
        rw [Prod.ext_iff] at h1
        exact absurd h1.2 (by simp)
      | ok c1 =>
        simp only at h1
        rw [Prod.ext_iff] at h1
        have h2 : (applyOptions os c1).2 = .ok c' := h1.2
        have h3 : applyOptions os c1 = ((applyOptions os c1).1, .ok c') := by
          rw [← h2]
        have h4 := ih (fun o' ho' => h o' (List.mem_cons_of_mem _ ho')) c1 _ c' h3
        rw [h4]
        exact h o (List.mem_cons_self _ _) c tr1 c1 ho

/-! ## The claims -/

/--
Claim C1, counterexample to the claim as stated: for a call whose
`Request.Params` carry their own `_sid` value, the outgoing query does
not contain exactly `_sid=R` even though `Request.SID = "R"` is
non-empty — the merge loop of `Do` appends the parameter value after the
resolved one, so the key `_sid` holds `R` and `x`.
-/
theorem sid_precedence_counterexample :
    Values.get
        (outgoingValues "S"
          { Path := "", API := "a", Version := "v", Method := "m",
            Params := [("_sid", ["x"])], SID := "R" }) "_sid" = ["R", "x"] ∧
      Values.get
        (outgoingValues "S"
          { Path := "", API := "a", Version := "v", Method := "m",
            Params := [("_sid", ["x"])], SID := "R" }) "_sid" ≠ ["R"] := by
  constructor <;> decide

/--
Claim C1 (amended): provided `Request.Params` carries no values under the
key `_sid`, the `_sid` parameter of the outgoing query built by `Do`
follows the precedence rule: a non-empty `Request.SID` gives exactly
`_sid=Request.SID` regardless of the cached client sid; otherwise a
non-empty cached sid gives exactly `_sid=<cached sid>`; if both are empty
no `_sid` parameter is present.
-/
theorem sid_precedence (csid : String) (r : Request)
    (hp : ∀ p ∈ r.Params, p.1 = "_sid" → p.2 = []) :
    (r.SID ≠ "" → Values.get (outgoingValues csid r) "_sid" = [r.SID]) ∧
    (r.SID = "" → csid ≠ "" → Values.get (outgoingValues csid r) "_sid" = [csid]) ∧
    (r.SID = "" → csid = "" → Values.get (outgoingValues csid r) "_sid" = []) := by
  have hmg : Values.mergeGet r.Params "_sid" = [] := Values.mergeGet_eq_nil _ _ hp
  refine ⟨?_, ?_, ?_⟩
  · intro h
    rw [outgoing_get_sid, hmg, if_pos h]
    rfl
  · intro h1 h2
    rw [outgoing_get_sid, hmg, if_neg (by simp [h1]), if_pos h2]
    rfl
  · intro h1 h2
    rw [outgoing_get_sid, hmg, if_neg (by simp [h1]), if_neg (by simp [h2])]
    rfl

/-- Witness for C1 at a concrete client sid and request. -/
theorem sid_precedence_witness :
    Values.get
      (outgoingValues "S"
        { Path := "", API := "a", Version := "v", Method := "m",
          Params := [("foo", ["bar"])], SID := "R" }) "_sid" = ["R"] :=
  (sid_precedence "S"
    { Path := "", API := "a", Version := "v", Method := "m",
      Params := [("foo", ["bar"])], SID := "R" } (by decide)).1 (by decide)

/--
Claim C2, counterexample to the claim as stated: with base URL path
`/a/b` and the relative request path `c`, the final URL path is `/a/c` —
not equal to `Request.Path`, and visibly influenced by the path of the
base URL (Go resolves the reference URL against the base as a relative
reference).
-/
theorem resolve_url_counterexample :
    (httpReq { scheme := "http", host := "h", path := "/a/b", rawQuery := "" } ""
        { Path := "c", API := "a", Version := "v", Method := "m",
          Params := [], SID := "" }).url.path = "/a/c" ∧
      (httpReq { scheme := "http", host := "h", path := "/a/b", rawQuery := "" } ""
        { Path := "c", API := "a", Version := "v", Method := "m",
          Params := [], SID := "" }).url.path ≠ "c" := by
  constructor <;> decide

/--
Claim C2 (amended): the URL issued by `Do` takes scheme and host from the
base URL and its query is exactly the encoded outgoing parameter set (the
query of the base URL never survives); its path is the RFC 3986
resolution of `Request.Path` against the base path, which equals
`Request.Path` whenever `Request.Path` is rooted (begins with a slash)
and free of `.` and `..` segments — for other request paths the base path
takes part in relative resolution.
-/
theorem resolve_url (base : URL) (csid : String) (r : Request) :
    (httpReq base csid r).method = "GET" ∧
    (httpReq base csid r).url.scheme = base.scheme ∧
    (httpReq base csid r).url.host = base.host ∧
    (httpReq base csid r).url.rawQuery = (outgoingValues csid r).encode ∧
    (httpReq base csid r).url.path = resolvePath base.path r.Path ∧
    (r.Path.data.head? = some '/' →
      (∀ s ∈ r.Path.data.splitOn '/', s ≠ ['.'] ∧ s ≠ ['.', '.']) →
      (httpReq base csid r).url.path = r.Path) := by
  have henc : (outgoingValues csid r).encode ≠ "" :=
    Values.encode_ne_empty _ "api" (outgoing_get_api_ne_nil csid r)
  have hres := resolveReference_from_do base r.Path _ henc
  unfold httpReq
  rw [hres]
  refine ⟨rfl, rfl, rfl, rfl, rfl, ?_⟩
  intro hhead hdots
  cases hpd : r.Path.data with
  | nil => rw [hpd] at hhead; exact absurd hhead (by simp)
  | cons c t =>
    rw [hpd] at hhead
    have hc : c = '/' := by simpa using hhead
    subst hc
    have hstep : resolvePathL base.path.data r.Path.data = r.Path.data := by
      rw [hpd]
      exact resolvePathL_rooted _ t (hpd ▸ hdots)
    show String.mk (resolvePathL base.path.data r.Path.data) = r.Path
    rw [hstep]

/-- Witness for C2: a rooted dot-free request path survives to the final
URL untouched by the base path. -/
theorem resolve_url_witness :
    (httpReq { scheme := "http", host := "foo.com", path := "/old", rawQuery := "oldq" } "S"
        { Path := "/webapi/auth.cgi", API := "a", Version := "v", Method := "m",
          Params := [], SID := "" }).url.path = "/webapi/auth.cgi" :=
  (resolve_url { scheme := "http", host := "foo.com", path := "/old", rawQuery := "oldq" } "S"
    { Path := "/webapi/auth.cgi", API := "a", Version := "v", Method := "m",
      Params := [], SID := "" }).2.2.2.2.2 (by decide) (by decide)

/--
Claim C3: for every decoded response envelope, `Do` dispatches as
specified — `success: false` returns the API error built from the error
code and never reaches the destination; `success: true` with a
destination decodes the payload into it, propagating a decode failure
verbatim; `success: true` without a destination returns no error.
-/
theorem envelope_dispatch {α : Type} (base : URL) (t : Transport) (csid : String)
    (r : Request) (e : Envelope) (dec : Option (Json → Except Err α))
    (ht : t.RoundTrip (httpReq base csid r) = .ok (.env e)) :
    (e.Success = false →
      Client.Do ⟨some base, t, csid⟩ r dec =
        ([httpReq base csid r], .error (.api e.Error.Code))) ∧
    (∀ d, e.Success = true → dec = some d →
      Client.Do ⟨some base, t, csid⟩ r dec =
        ([httpReq base csid r],
         match d e.Data with
         | .error de => .error de
         | .ok a => .ok (some a))) ∧
    (e.Success = true → dec = none →
      Client.Do ⟨some base, t, csid⟩ r dec = ([httpReq base csid r], .ok none)) := by
  refine ⟨?_, ?_, ?_⟩
  · intro hs
    simp [Client.Do, ht, decodeEnvelope, hs]
  · intro d hs hd
    subst hd
    cases hda : d e.Data with
    | error de => simp [Client.Do, ht, decodeEnvelope, hs, hda]
    | ok a => simp [Client.Do, ht, decodeEnvelope, hs, hda]
  · intro hs hd
    subst hd
    simp [Client.Do, ht, decodeEnvelope, hs]

/-- Witness for C3: a concrete failing envelope yields the API error. -/
theorem envelope_dispatch_witness :
    Client.Do
        ⟨some { scheme := "http", host := "foo.com", path := "/", rawQuery := "" },
          Transport.roundTripper
            (fun _ => .ok (.env { Success := false, Error := { Code := 100 }, Data := .null })),
          ""⟩
        { Path := "", API := "a", Version := "v", Method := "m", Params := [], SID := "" }
        (none : Option (Json → Except Err String)) =
      ([httpReq { scheme := "http", host := "foo.com", path := "/", rawQuery := "" } ""
          { Path := "", API := "a", Version := "v", Method := "m", Params := [], SID := "" }],
        .error (.api 100)) :=
  (envelope_dispatch
    { scheme := "http", host := "foo.com", path := "/", rawQuery := "" }
    (Transport.roundTripper
      (fun _ => .ok (.env { Success := false, Error := { Code := 100 }, Data := .null })))
    ""
    { Path := "", API := "a", Version := "v", Method := "m", Params := [], SID := "" }
    { Success := false, Error := { Code := 100 }, Data := .null }
    (none : Option (Json → Except Err String))
    rfl).1 rfl

/--
Claim C4: `NewClient` fails exactly when some option fails — returning
that option's error — or when, after applying all options, the base URL
is missing or not absolute; on success the returned client keeps the
platform default transport whenever no option changed the transport.
-/
theorem newClient_spec (options : List ClientOption) :
    (∀ tr e, applyOptions options initClient = (tr, .error e) →
      (NewClient options).2 = .error e) ∧
    (∀ tr c, applyOptions options initClient = (tr, .ok c) →
      (c.url = none → (NewClient options).2 = .error .urlMisconfigured) ∧
      (∀ u, c.url = some u → u.isAbs = false →
        (NewClient options).2 = .error .urlMisconfigured) ∧
      (∀ u, c.url = some u → u.isAbs = true → (NewClient options).2 = .ok c)) ∧
    ((∀ o ∈ options, ∀ cl tr cl', o cl = (tr, .ok cl') → cl'.transport = cl.transport) →
      ∀ tr c, NewClient options = (tr, .ok c) → c.transport = .defaultTransport) := by
  refine ⟨?_, ?_, ?_⟩
  · intro tr e h
    simp [NewClient, h]
  · intro tr c h
    refine ⟨?_, ?_, ?_⟩
    · intro hu
      simp [NewClient, h, hu]
    · intro u hu habs
      simp [NewClient, h, hu, habs]
    · intro u hu habs
      simp [NewClient, h, hu, habs]
  · intro hpres tr c hnc
    cases happ : applyOptions options initClient with
    | mk tra ra =>
      simp only [NewClient, happ] at hnc
      cases ra with
      | error e => simp [Prod.ext_iff] at hnc
      | ok c0 =>
        cases hu : c0.url with
        | none =>
          simp only [hu] at hnc
          simp [Prod.ext_iff] at hnc
        | some u =>
          simp only [hu] at hnc
          by_cases habs : u.isAbs
          · rw [if_pos habs] at hnc
            rw [Prod.ext_iff] at hnc
            have hc0 : c0 = c := by
              have := hnc.2
              injection this
            subst hc0
            exact applyOptions_transport options hpres initClient tra c0 happ
          · rw [if_neg habs] at hnc
            simp [Prod.ext_iff] at hnc

/-- Witness for C4: a client built from a URL option alone keeps the
default transport. -/
theorem newClient_spec_witness :
    ({ url := some { scheme := "http", host := "foo.com", path := "", rawQuery := "" },
       transport := Transport.defaultTransport, sid := "" } : Client).transport =
      Transport.defaultTransport := by
  refine (newClient_spec
      [ClientURL { scheme := "http", host := "foo.com", path := "", rawQuery := "" }]).2.2
    ?_ [] _ rfl
  intro o ho cl tr cl' h
  rw [List.mem_singleton] at ho
  subst ho
  simp only [ClientURL, Prod.ext_iff, Except.ok.injEq] at h
  rw [← h.2]

/--
Claim C5: the `ClientLogin` option, applied to a client whose URL is
configured, performs exactly one request through the client as configured
so far; on a successful response the resulting client caches the `sid`
field of the response; and when the transport fails, the option — and
with it `NewClient` — fails with exactly that error and no client is
returned.
-/
theorem clientLogin_spec (l : AuthLogin) (base : URL) (t : Transport) (csid : String)
    (lr : Request)
    (hlr : ({ l with Format := "sid" } : AuthLogin).MarshalRequest = .ok lr) :
    ((ClientLogin l ⟨some base, t, csid⟩).1 = [httpReq base csid lr]) ∧
    (∀ e res, t.RoundTrip (httpReq base csid lr) = .ok (.env e) → e.Success = true →
      decodeAuthLoginResponse e.Data = .ok res →
      ClientLogin l ⟨some base, t, csid⟩ =
        ([httpReq base csid lr], .ok ⟨some base, t, res.SID⟩)) ∧
    (∀ err, t.RoundTrip (httpReq base csid lr) = .error err →
      ClientLogin l ⟨some base, t, csid⟩ = ([httpReq base csid lr], .error err) ∧
      (∀ os tr, applyOptions os initClient = (tr, .ok ⟨some base, t, csid⟩) →
        (NewClient (os ++ [ClientLogin l])).2 = .error err)) := by
  have hcall_eq :
      Client.Call ⟨some base, t, csid⟩
          ⟨({ l with Format := "sid" } : AuthLogin).MarshalRequest⟩
          (some decodeAuthLoginResponse) =
        Client.Do ⟨some base, t, csid⟩ lr (some decodeAuthLoginResponse) :=
    call_ok ⟨some base, t, csid⟩
      ⟨({ l with Format := "sid" } : AuthLogin).MarshalRequest⟩
      (some decodeAuthLoginResponse) lr hlr
  refine ⟨?_, ?_, ?_⟩
  · rw [clientLogin_fst, hcall_eq]
    exact do_fst _ _ _ base rfl
  · intro e res hrt hs hres
    have hCall : Client.Call ⟨some base, t, csid⟩
        ⟨({ l with Format := "sid" } : AuthLogin).MarshalRequest⟩
        (some decodeAuthLoginResponse) = ([httpReq base csid lr], .ok (some res)) := by
      rw [hcall_eq]
      simp [Client.Do, hrt, decodeEnvelope, hs, hres]
    simp [ClientLogin, hCall]
  · intro err hrt
    have hCall : Client.Call ⟨some base, t, csid⟩
        ⟨({ l with Format := "sid" } : AuthLogin).MarshalRequest⟩
        (some decodeAuthLoginResponse) =
          (([httpReq base csid lr] : Trace),
            (.error err : Except Err (Option AuthLoginResponse))) := by
      rw [hcall_eq]
      simp [Client.Do, hrt]
    have hopt : ClientLogin l ⟨some base, t, csid⟩ = ([httpReq base csid lr], .error err) := by
      simp [ClientLogin, hCall]
    constructor
    · exact hopt
    · intro os tr happ
      have happly : applyOptions [ClientLogin l] (⟨some base, t, csid⟩ : Client) =
          ([httpReq base csid lr], .error err) := by
        simp [applyOptions, hopt]
      simp [NewClient, applyOptions_append, happ, happly]

/-- Witness for C5: a failing transport makes construction fail with
exactly that error. -/
theorem clientLogin_spec_witness :
    (NewClient
        [ClientURL { scheme := "http", host := "foo.com", path := "", rawQuery := "" },
         ClientTransport (Transport.roundTripper (fun _ => .error (.custom "boom"))),
         ClientLogin { Account := "account", Password := "password", Session := "",
                       Format := "", OTPCode := "" }]).2 = .error (.custom "boom") := by
  have h := (clientLogin_spec
    { Account := "account", Password := "password", Session := "", Format := "", OTPCode := "" }
    { scheme := "http", host := "foo.com", path := "", rawQuery := "" }
    (Transport.roundTripper (fun _ => .error (.custom "boom")))
    ""
    { Path := authLoginPath, API := authLoginAPI, Version := authLoginVersion,
      Method := "login",
      Params := [("account", ["account"]), ("passwd", ["password"]), ("format", ["sid"])],
      SID := "" }
    rfl).2.2 (.custom "boom") rfl
  exact h.2
    [ClientURL { scheme := "http", host := "foo.com", path := "", rawQuery := "" },
     ClientTransport (Transport.roundTripper (fun _ => .error (.custom "boom")))]
    [] rfl

/--
Claim C6: for every well-formed parameter set (unique keys, as for every
Go map), the empty-value elision of `dropEmpty` removes exactly the keys
whose value slice is a single empty string; every other key — multi-valued
or holding a non-empty string — observes the same slice as before.
-/
theorem dropEmpty_elision (p : Values) (k : String) (h : p.WF) :
    Values.get (dropEmpty p) k =
      if Values.get p k = [""] then [] else Values.get p k :=
  Values.get_dropEmpty p k h

/-- Witness for C6 on the parameter set of the source test. -/
theorem dropEmpty_elision_witness :
    Values.get (dropEmpty [("keep", ["foo"]), ("drop", [""]), ("multi", ["", ""])]) "drop" =
      if Values.get [("keep", ["foo"]), ("drop", [""]), ("multi", ["", ""])] "drop" = [""]
      then []
      else Values.get [("keep", ["foo"]), ("drop", [""]), ("multi", ["", ""])] "drop" :=
  dropEmpty_elision [("keep", ["foo"]), ("drop", [""]), ("multi", ["", ""])] "drop" (by decide)

/--
Claim C7: `Call` first marshals; a marshal failure is returned verbatim
with no network activity (empty trace, whatever the transport is), and a
successful marshal makes `Call` behave exactly as `Do` on the produced
request and destination.
-/
theorem call_spec {α : Type} (c : Client) (m : Marshaler)
    (dec : Option (Json → Except Err α)) :
    (∀ e, m.MarshalRequest = .error e → c.Call m dec = ([], .error e)) ∧
    (∀ req, m.MarshalRequest = .ok req → c.Call m dec = c.Do req dec) := by
  constructor
  · intro e he
    simp [Client.Call, he]
  · intro req hr
    exact call_ok c m dec req hr

/-- Witness for C7: a failing marshaler short-circuits `Call`. -/
theorem call_spec_witness :
    Client.Call
        ⟨some { scheme := "http", host := "foo.com", path := "", rawQuery := "" },
          Transport.defaultTransport, ""⟩
        ⟨.error (.custom "marshal failed")⟩
        (none : Option (Json → Except Err String)) =
      ([], .error (.custom "marshal failed")) :=
  (call_spec
    ⟨some { scheme := "http", host := "foo.com", path := "", rawQuery := "" },
      Transport.defaultTransport, ""⟩
    ⟨.error (.custom "marshal failed")⟩
    (none : Option (Json → Except Err String))).1 (.custom "marshal failed") rfl

/--
Claim C8: rendering the API error yields
`syno: <description> (<code>)` exactly for the codes of the fixed table
(100 through 107) and `syno: error code <code>` for every other integer;
in particular code 100 renders with the description `unknown API error`
and the unmapped code 42 renders in the generic form.
-/
theorem error_render (e : Int) :
    (100 ≤ e → e ≤ 107 → ∃ s, (e, s) ∈ errStrings ∧
      Error.Error e = "syno: " ++ s ++ " (" ++ toString e ++ ")") ∧
    (e < 100 ∨ 107 < e → Error.Error e = "syno: error code " ++ toString e) ∧
    Error.Error 100 = "syno: unknown API error (100)" ∧
    Error.Error 42 = "syno: error code 42" := by
  refine ⟨?_, ?_, by decide, by decide⟩
  · intro h1 h2
    have : e = 100 ∨ e = 101 ∨ e = 102 ∨ e = 103 ∨ e = 104 ∨ e = 105 ∨ e = 106 ∨ e = 107 := by
      omega
    rcases this with rfl | rfl | rfl | rfl | rfl | rfl | rfl | rfl
    · exact ⟨"unknown API error", by decide, by decide⟩
    · exact ⟨"invalid parameter", by decide, by decide⟩
    · exact ⟨"invalid API", by decide, by decide⟩
    · exact ⟨"invalid method", by decide, by decide⟩
    · exact ⟨"unsupported version", by decide, by decide⟩
    · exact ⟨"permission denined", by decide, by decide⟩
    · exact ⟨"session timeout error", by decide, by decide⟩
    · exact ⟨"session interrupted with duplicated login", by decide, by decide⟩
  · intro h
    rcases h with h | h <;>
    · have hfind : errStrings.find? (fun p => p.1 == e) = none := by
        rw [errStrings]
        rw [List.find?_cons_of_neg _ (by simp only [ErrorUnknown, beq_iff_eq]; omega)]
        rw [List.find?_cons_of_neg _ (by simp only [ErrorInvalidParameter, beq_iff_eq]; omega)]
        rw [List.find?_cons_of_neg _ (by simp only [ErrorInvalidAPI, beq_iff_eq]; omega)]
        rw [List.find?_cons_of_neg _ (by simp only [ErrorInvalidMethod, beq_iff_eq]; omega)]
        rw [List.find?_cons_of_neg _ (by simp only [ErrorUnsupportedVersion, beq_iff_eq]; omega)]
        rw [List.find?_cons_of_neg _ (by simp only [ErrorPermissionDenied, beq_iff_eq]; omega)]
        rw [List.find?_cons_of_neg _ (by simp only [ErrorSessionTimeout, beq_iff_eq]; omega)]
        rw [List.find?_cons_of_neg _
          (by simp only [ErrorSessionInterruptedDuplicateLogin, beq_iff_eq]; omega)]
        rfl
      simp [Error.Error, hfind]

/-- Witness for C8 at a mapped and an unmapped code. -/
theorem error_render_witness :
    (∃ s, ((105 : Int), s) ∈ errStrings ∧
      Error.Error 105 = "syno: " ++ s ++ " (" ++ toString (105 : Int) ++ ")") ∧
    Error.Error 200 = "syno: error code 200" :=
  ⟨(error_render 105).1 (by omega) (by omega), (error_render 200).2.1 (by omega)⟩

/--
Claim C9: marshaling a list-tasks request with zero Offset and Limit and
an empty Additional list produces an empty parameter set; with Offset 1,
Limit 2 and Additional a, b it produces exactly offset=1, limit=2 and the
comma-joined additional=a,b; in general a zero integer field is omitted,
a non-zero one rendered in decimal, an empty list omitted and a non-empty
list comma-joined into one value.
-/
theorem downloadTaskList_marshal (d : DownloadTaskList) :
    (DownloadTaskList.MarshalRequest { Offset := 0, Limit := 0, Additional := [] } =
      .ok { Path := downloadTaskPath, API := downloadTaskAPI,
            Version := downloadTaskVersion, Method := "list", Params := [], SID := "" }) ∧
    (DownloadTaskList.MarshalRequest { Offset := 1, Limit := 2, Additional := ["a", "b"] } =
      .ok { Path := downloadTaskPath, API := downloadTaskAPI,
            Version := downloadTaskVersion, Method := "list",
            Params := [("offset", ["1"]), ("limit", ["2"]), ("additional", ["a,b"])],
            SID := "" }) ∧
    (∃ req, d.MarshalRequest = .ok req ∧
      Values.get req.Params "offset" = (if d.Offset = 0 then [] else [toString d.Offset]) ∧
      Values.get req.Params "limit" = (if d.Limit = 0 then [] else [toString d.Limit]) ∧
      Values.get req.Params "additional" =
        (if d.Additional = [] then [] else [String.intercalate "," d.Additional])) := by
  refine ⟨by rfl, by rfl, ?_⟩
  refine ⟨_, rfl, ?_, ?_, ?_⟩ <;>
    by_cases h1 : d.Offset = 0 <;> by_cases h2 : d.Limit = 0 <;>
      by_cases h3 : d.Additional = [] <;>
        simp [h1, h2, h3, List.length_pos, Values.add, Values.get, List.find?_cons]

/--
Claim C10: whatever `Format` the caller put in the `AuthLogin` value, the
`ClientLogin` option overwrites it with `"sid"` before marshaling, so the
marshaled login request and hence the outgoing query of the single
request sent during construction always carry the parameter
`format=sid`.
-/
theorem clientLogin_format_sid (l : AuthLogin) (base : URL) (t : Transport) (csid : String) :
    ∃ lr, ({ l with Format := "sid" } : AuthLogin).MarshalRequest = .ok lr ∧
      Values.get lr.Params "format" = ["sid"] ∧
      Values.get (outgoingValues csid lr) "format" = ["sid"] ∧
      (ClientLogin l ⟨some base, t, csid⟩).1 = [httpReq base csid lr] := by
  refine ⟨{ Path := authLoginPath, API := authLoginAPI, Version := authLoginVersion,
            Method := "login",
            Params := dropEmpty
              [("account", [l.Account]), ("passwd", [l.Password]),
               ("session", [l.Session]), ("format", ["sid"]),
               ("otp_code", [l.OTPCode])],
            SID := "" }, rfl, ?_, ?_, ?_⟩
  case _ =>
    have hwf : Values.WF
        [("account", [l.Account]), ("passwd", [l.Password]),
         ("session", [l.Session]), ("format", ["sid"]), ("otp_code", [l.OTPCode])] := by
      simp only [Values.WF, List.map_cons, List.map_nil]
      decide
    rw [Values.get_dropEmpty _ _ hwf]
    have hget : Values.get
        [("account", [l.Account]), ("passwd", [l.Password]),
         ("session", [l.Session]), ("format", ["sid"]), ("otp_code", [l.OTPCode])]
        "format" = ["sid"] := by
      rw [Values.get_cons, if_neg (by decide), Values.get_cons, if_neg (by decide),
        Values.get_cons, if_neg (by decide), Values.get_cons, if_pos rfl]
    rw [hget, if_neg (by decide)]
  case _ =>
    rw [outgoing_get csid _ "format" (by decide)]
    have h1 : Values.get
        [("api", [authLoginAPI]), ("version", [authLoginVersion]), ("method", ["login"])]
        "format" = [] := by
      rw [Values.get_cons, if_neg (by decide), Values.get_cons, if_neg (by decide),
        Values.get_cons, if_neg (by decide)]
      exact Values.get_nil _
    rw [h1]
    have h2 : Values.mergeGet
        (dropEmpty
          [("account", [l.Account]), ("passwd", [l.Password]),
           ("session", [l.Session]), ("format", ["sid"]), ("otp_code", [l.OTPCode])])
        "format" = ["sid"] := by
      simp only [dropEmpty, List.filter_cons, List.filter_nil]
      split_ifs <;> simp_all [Values.mergeGet]
    rw [h2]
    rfl
  case _ =>
    rw [clientLogin_fst,
      call_ok ⟨some base, t, csid⟩
        ⟨({ l with Format := "sid" } : AuthLogin).MarshalRequest⟩
        (some decodeAuthLoginResponse) _ rfl]
    exact do_fst _ _ _ base rfl

end Syno
